import Mathlib

/-!
Verification development for the `iqserver-report-fetch` repository.

The subject is `IQReportService.GenerateLatestPolicyReport` in
`internal/services/iqreport.go`: a bounded-concurrency fan-out/fan-in
orchestrator that, for each application fetched from an IQ server, fetches
latest-report metadata, parses a report ID out of a URL, resolves an
organization name, fetches policy-violation rows, converts them to report
rows, and aggregates all rows into one CSV file.

The embedding below has two layers:
* a pure per-application pipeline `processApp` (lines 112-162 of the source),
  with the remote calls given by an oracle `Env` that fixes the outcome of
  each call;
* a small-step transition system `Step` over `SysState` for the concurrent
  part (semaphore of capacity 10, buffered results channel of capacity
  `len(apps)`, per-goroutine phases, context cancellation, channel close
  after `wg.Wait()`), with `Reachable` the reflexive-transitive closure
  from the initial state.

The sequential prelude and epilogue of `GenerateLatestPolicyReport`
(application fetch, empty check, organization fetch, CSV write, returned
path) are embedded as the relation `generateLatestPolicyReport`.
-/

set_option linter.unusedVariables false

namespace IQ

/-- One entry of the application list (`client` package): internal ID
(`app.ID`), public ID (`app.PublicID`) and owning organization
(`app.OrganizationID`). All fields are modelled as strings, as they are
only compared and passed along. -/
structure Application where
  appId : String
  publicId : String
  organizationId : String
deriving DecidableEq, Repr

/-- One entry of the organization list: `org.ID` and `org.Name`. -/
structure Organization where
  orgId : String
  name : String
deriving DecidableEq, Repr

/-- Latest-report metadata for an application (`reportInfo`): the
`ReportHTMLURL` field from which the report ID is cut, and the `Stage`
marker (only logged by the source). -/
structure ReportInfo where
  reportHTMLURL : String
  stage : String
deriving DecidableEq, Repr

/-- A violation record as returned by the client (`client.ViolationRow`),
with the ten fields that lines 150-161 of the source copy. The client
package is outside the orchestrator; its field values are CSV-bound text
and are modelled as strings. -/
structure ClientViolationRow where
  application : String
  organization : String
  policy : String
  format : String
  component : String
  threat : String
  policyAction : String
  constraintName : String
  condition : String
  cve : String
deriving DecidableEq, Repr

/-- The canonical report row (`report.Row`), the shape written to CSV. -/
structure Row where
  application : String
  organization : String
  policy : String
  format : String
  component : String
  threat : String
  policyAction : String
  constraintName : String
  condition : String
  cve : String
deriving DecidableEq, Repr

/-- Lines 150-161 of the source: convert one client violation row to a
report row, copying each of the ten fields. -/
def toReportRow (r : ClientViolationRow) : Row :=
  { application := r.application
    organization := r.organization
    policy := r.policy
    format := r.format
    component := r.component
    threat := r.threat
    policyAction := r.policyAction
    constraintName := r.constraintName
    condition := r.condition
    cve := r.cve }

/-- Oracle fixing the outcome of every external call one run can make:
the four IQ-server calls of the `client` package and `report.WriteCSV`.
`writeCSV path rows = none` means the write succeeded; `some e` is the
error message. Errors are modelled as their message strings. -/
structure Env where
  getApplications : Option String → Except String (List Application)
  getOrganizations : Except String (List Organization)
  getLatestReportInfo : String → Except String (Option ReportInfo)
  getPolicyViolations : String → String → String → Except String (List ClientViolationRow)
  writeCSV : String → List Row → Option String

/-- The configuration consumed by the service (`config.Config`). The
orchestrator reads only `OutputDir` (line 190). `concurrencyCeiling` is
Modelled from the spec: the spec lists a configured "concurrency ceiling
(default 10)" among the consumed configuration, but no such field is read
by the orchestrator source, which hard-codes its semaphore capacity; the
field is included so that that discrepancy can be stated. -/
structure Config where
  outputDir : String
  concurrencyCeiling : Nat
deriving DecidableEq, Repr

/-- Line 80 of the source: `sem := make(chan struct\x7b\x7d, 10)` — the
semaphore capacity is the literal `10`. -/
def semCapacity : Nat := 10

/-- The admission bound the orchestrator actually uses for a given
configuration: the source ignores the configuration and uses the literal
capacity of `semCapacity`. -/
def orchestratorCeiling (cfg : Config) : Nat := semCapacity

/-- The delimiter marker of line 125: `"/report/"`. -/
def reportMarker : String := "/report/"

/-- Go `unicode.IsSpace`, the character class trimmed by
`strings.TrimSpace`: ASCII space characters plus the Unicode
White_Space code points. -/
def goIsSpace (c : Char) : Bool :=
  c = ' ' || c = '\t' || c = '\n' || c = Char.ofNat 11 || c = Char.ofNat 12 ||
  c = '\r' || c = Char.ofNat 0x85 || c = Char.ofNat 0xA0 ||
  c = Char.ofNat 0x1680 || (Char.ofNat 0x2000 ≤ c && c ≤ Char.ofNat 0x200A) ||
  c = Char.ofNat 0x2028 || c = Char.ofNat 0x2029 || c = Char.ofNat 0x202F ||
  c = Char.ofNat 0x205F || c = Char.ofNat 0x3000

/-- Go `strings.TrimSpace`: drop leading and trailing white space. -/
def trimSpace (s : String) : String :=
  String.mk (((s.data.dropWhile goIsSpace).reverse.dropWhile goIsSpace).reverse)

/-- Core of Go `strings.Cut` on character lists: find the first occurrence
of `sep` as a contiguous sublist; return the part before it and the part
after it, or `none` when `sep` does not occur. -/
def cutList (sep : List Char) : List Char → Option (List Char × List Char)
  | [] => if sep = [] then some ([], []) else none
  | c :: cs =>
    if sep.isPrefixOf (c :: cs) then some ([], (c :: cs).drop sep.length)
    else
      match cutList sep cs with
      | some (pre, post) => some (c :: pre, post)
      | none => none

/-- Go `strings.Cut s sep`: `some (before, after)` at the first occurrence
of `sep` in `s`, `none` when `sep` is absent (Go additionally returns the
`found` boolean, modelled by the `Option`). -/
def stringsCut (s sep : String) : Option (String × String) :=
  (cutList sep.data s.data).map (fun p => (String.mk p.1, String.mk p.2))

/-- Outcome of the per-application pipeline of one goroutine
(lines 112-162), before the channel send. The source only logs the
error cases and sends nothing for them. -/
inductive TaskOutcome where
  /-- `GetLatestReportInfo` failed (line 113). -/
  | infoError (e : String)
  /-- no report available: metadata absent or blank URL (line 119). -/
  | noReport
  /-- the report ID could not be cut out of the URL (line 126). -/
  | parseError
  /-- `GetPolicyViolations` failed (line 141). -/
  | violationsError (e : String)
  /-- the pipeline completed; `rows` are the converted report rows. -/
  | success (rows : List Row)
deriving DecidableEq, Repr

/-- Whether a task outcome is the success case. -/
def TaskOutcome.isSuccess : TaskOutcome → Bool
  | .success _ => true
  | _ => false

/-- The rows a task outcome contributes to the aggregate: the converted
rows on success, nothing otherwise. -/
def taskRows : TaskOutcome → List Row
  | .success rows => rows
  | _ => []

/-- Lines 69-72: build the organization ID-to-name map by inserting each
organization in list order into a Go map, so a later organization with the
same ID overwrites an earlier one. The map is modelled as an association
list whose lookup finds the last inserted binding, i.e. `List.lookup` on
the reversed key-value list. -/
def buildOrgMap (orgs : List Organization) : List (String × String) :=
  (orgs.map (fun o => (o.orgId, o.name))).reverse

/-- Lines 133-137: resolve the organization display name from the map,
falling back to the raw organization ID when the map has no entry. -/
def resolveOrgName (m : List (String × String)) (oid : String) : String :=
  match List.lookup oid m with
  | some n => n
  | none => oid

/-- Lines 112-162 of the source: the per-application pipeline run by one
goroutine once it holds a semaphore ticket and has passed the context
check — fetch latest-report metadata, skip on absent/blank URL, cut the
report ID at `"/report/"`, resolve the organization name, fetch the
violations and convert them. The remote calls take their outcomes from
the oracle `env`. -/
def processApp (env : Env) (m : List (String × String)) (app : Application) :
    TaskOutcome :=
  match env.getLatestReportInfo app.appId with
  | .error e => .infoError e
  | .ok none => .noReport
  | .ok (some info) =>
    if trimSpace info.reportHTMLURL = "" then .noReport
    else
      match stringsCut info.reportHTMLURL reportMarker with
      | none => .parseError
      | some (_, reportID) =>
        if reportID = "" then .parseError
        else
          let orgName := resolveOrgName m app.organizationId
          match env.getPolicyViolations app.publicId reportID orgName with
          | .error e => .violationsError e
          | .ok clientRows => .success (clientRows.map toReportRow)

example :
    stringsCut "http://iq/ui/links/report/app1/report/abc12" "/report/" =
      some ("http://iq/ui/links", "app1/report/abc12") := by
  decide

example : stringsCut "no marker here" "/report/" = none := by decide

example : trimSpace "  \t " = "" := by decide

/-! ## The concurrent fan-out/fan-in (lines 80-184)

Each launched goroutine is modelled by a phase. Remote calls inside the
pipeline are atomic with respect to the interleaving because their
outcomes are fixed by the oracle; the suspension points of the source —
the semaphore `select`, the `ctx.Err()` check, and the delivery `select` —
are the phase boundaries. -/

/-- The control state of one launched goroutine. -/
inductive Phase where
  /-- launched, at the acquisition `select` of lines 97-102. -/
  | start
  /-- holding a ticket, at the `ctx.Err()` check of line 105. -/
  | acquired
  /-- pipeline done with outcome `success rows`, holding a ticket, at the
  delivery `select` of lines 165-168. -/
  | delivering (rows : List Row)
  /-- returned after delivering its result (ticket released by the
  deferred pop of line 99). -/
  | doneSent
  /-- returned without delivering: pipeline failure or skip, the
  `ctx.Err()` early return, or the `ctx.Done()` arm of the delivery
  `select` (ticket released by the deferred pop). -/
  | doneNoSend
  /-- returned from the `ctx.Done()` arm of the acquisition `select`
  (line 100-101), never having held a ticket. -/
  | doneNoTicket
deriving DecidableEq, Repr

/-- Whether a goroutine in this phase currently holds a semaphore ticket. -/
def Phase.holdsTicket : Phase → Bool
  | .acquired => true
  | .delivering _ => true
  | _ => false

/-- Whether a goroutine in this phase has returned (its deferred
`wg.Done()` has run). -/
def Phase.isTerminal : Phase → Bool
  | .doneSent => true
  | .doneNoSend => true
  | .doneNoTicket => true
  | _ => false

/-- State of the concurrent section: the phase of each goroutine (indexed
like `apps`), the number of occupied semaphore slots, the contents of the
buffered results channel in send order (each entry tagged with the index
of the sending goroutine), whether the channel has been closed, and
whether the context has been canceled. -/
structure SysState where
  phases : List Phase
  sem : Nat
  chan : List (Nat × List Row)
  closed : Bool
  canceled : Bool
deriving DecidableEq, Repr

/-- The fixed data of one run of the concurrent section: the oracle, the
fetched applications and the organization map built before fan-out (the
map is part of this immutable configuration, never of the mutable state:
it is built once and only read by the goroutines). -/
structure RunCfg where
  env : Env
  apps : List Application
  orgMap : List (String × String)

/-- Number of goroutines currently holding a ticket. -/
def holdingCount (ps : List Phase) : Nat :=
  ps.countP (fun p => p.holdsTicket)

/-- Number of goroutines that have delivered their result. -/
def countSent (ps : List Phase) : Nat :=
  ps.countP (fun p => decide (p = Phase.doneSent))

/-- Number of channel entries sent by goroutine `i`. -/
def keyCount (chan : List (Nat × List Row)) (i : Nat) : Nat :=
  chan.countP (fun e => decide (e.1 = i))

/-- Lines 179-184: the aggregate the drain loop builds — the delivered row
sequences concatenated in send order. -/
def aggregate (s : SysState) : List Row :=
  (s.chan.map Prod.snd).flatten

/-- The initial state of the concurrent section: every goroutine launched
and at the acquisition `select`, the semaphore empty, the channel empty
and open, the context not canceled. -/
def initState (cfg : RunCfg) : SysState :=
  { phases := List.replicate cfg.apps.length Phase.start
    sem := 0
    chan := []
    closed := false
    canceled := false }

/-- One interleaving step of the concurrent section of
`GenerateLatestPolicyReport` (lines 80-176). -/
inductive Step (cfg : RunCfg) : SysState → SysState → Prop where
  /-- the run's context is canceled (external event; `ctx` is the
  function argument). -/
  | cancel (s : SysState) (hc : s.canceled = false) :
      Step cfg s { s with canceled := true }
  /-- lines 97-99: the acquisition `select` takes the semaphore arm; only
  enabled while a slot is free. -/
  | acquire (s : SysState) (i : Nat)
      (hp : s.phases[i]? = some Phase.start) (hsem : s.sem < semCapacity) :
      Step cfg s { s with phases := s.phases.set i Phase.acquired, sem := s.sem + 1 }
  /-- lines 100-101: the acquisition `select` takes the `ctx.Done()` arm;
  the goroutine returns without ever holding a ticket. -/
  | cancelWaiting (s : SysState) (i : Nat)
      (hp : s.phases[i]? = some Phase.start) (hc : s.canceled = true) :
      Step cfg s { s with phases := s.phases.set i Phase.doneNoTicket }
  /-- lines 105-107: the `ctx.Err()` check fires; the deferred pop
  releases the ticket. -/
  | cancelChecked (s : SysState) (i : Nat)
      (hp : s.phases[i]? = some Phase.acquired) (hc : s.canceled = true) :
      Step cfg s { s with phases := s.phases.set i Phase.doneNoSend, sem := s.sem - 1 }
  /-- lines 112-144: the context check passes and the pipeline ends in a
  non-success outcome — the goroutine logs and returns, sending nothing;
  the deferred pop releases the ticket. -/
  | workFail (s : SysState) (i : Nat) (app : Application)
      (hp : s.phases[i]? = some Phase.acquired) (hc : s.canceled = false)
      (ha : cfg.apps[i]? = some app)
      (hout : (processApp cfg.env cfg.orgMap app).isSuccess = false) :
      Step cfg s { s with phases := s.phases.set i Phase.doneNoSend, sem := s.sem - 1 }
  /-- lines 112-162: the context check passes and the pipeline succeeds;
  the goroutine moves to the delivery `select` with its converted rows. -/
  | workSuccess (s : SysState) (i : Nat) (app : Application) (rows : List Row)
      (hp : s.phases[i]? = some Phase.acquired) (hc : s.canceled = false)
      (ha : cfg.apps[i]? = some app)
      (hout : processApp cfg.env cfg.orgMap app = TaskOutcome.success rows) :
      Step cfg s { s with phases := s.phases.set i (Phase.delivering rows) }
  /-- line 166: the delivery `select` takes the send arm; only enabled
  while the buffer (capacity `len(apps)`, line 81) has space. The deferred
  pop releases the ticket on return. -/
  | send (s : SysState) (i : Nat) (rows : List Row)
      (hp : s.phases[i]? = some (Phase.delivering rows))
      (hspace : s.chan.length < cfg.apps.length) :
      Step cfg s { s with phases := s.phases.set i Phase.doneSent,
                          chan := s.chan ++ [(i, rows)], sem := s.sem - 1 }
  /-- line 167: the delivery `select` takes the `ctx.Done()` arm; the row
  set is dropped and the deferred pop releases the ticket. -/
  | cancelDelivering (s : SysState) (i : Nat) (rows : List Row)
      (hp : s.phases[i]? = some (Phase.delivering rows)) (hc : s.canceled = true) :
      Step cfg s { s with phases := s.phases.set i Phase.doneNoSend, sem := s.sem - 1 }
  /-- lines 173-176: the closer goroutine's `wg.Wait()` returns — only
  once every launched goroutine has returned — and it closes the channel. -/
  | closeChan (s : SysState)
      (hterm : ∀ p ∈ s.phases, p.isTerminal = true) (hcl : s.closed = false) :
      Step cfg s { s with closed := true }

/-- States the concurrent section can reach from its initial state. -/
def Reachable (cfg : RunCfg) (s : SysState) : Prop :=
  Relation.ReflTransGen (Step cfg) (initState cfg) s

/-- Setting index `i` (currently `b`) to `a` changes a `countP` by the
difference of the two indicator values, stated addition-only. -/
lemma countP_set_balance {α : Type} (p : α → Bool) :
    ∀ (l : List α) (i : Nat) (a b : α), l[i]? = some b →
      (l.set i a).countP p + (if p b then 1 else 0) =
        l.countP p + (if p a then 1 else 0)
  | [], i, a, b, hb => by simp at hb
  | x :: xs, 0, a, b, hb => by
    obtain rfl : x = b := by simpa using hb
    simp only [List.set_cons_zero, List.countP_cons]
    cases hpa : p a <;> cases hpx : p x <;> simp [hpa, hpx]
  | x :: xs, i + 1, a, b, hb => by
    simp only [List.getElem?_cons_succ] at hb
    have ih := countP_set_balance p xs i a b hb
    simp only [List.set_cons_succ, List.countP_cons]
    omega

/-- `countP_set_balance` specialized to the ticket-holder count. -/
lemma holdingCount_set (ps : List Phase) (i : Nat) (a b : Phase)
    (hb : ps[i]? = some b) :
    holdingCount (ps.set i a) + (if b.holdsTicket then 1 else 0) =
      holdingCount ps + (if a.holdsTicket then 1 else 0) := by
  have h := countP_set_balance (fun p => p.holdsTicket) ps i a b hb
  simpa [holdingCount] using h

/-- `countP_set_balance` specialized to the sent count. -/
lemma countSent_set (ps : List Phase) (i : Nat) (a b : Phase)
    (hb : ps[i]? = some b) :
    countSent (ps.set i a) + (if b = Phase.doneSent then 1 else 0) =
      countSent ps + (if a = Phase.doneSent then 1 else 0) := by
  have h := countP_set_balance (fun p => decide (p = Phase.doneSent)) ps i a b hb
  simpa [countSent] using h

/-- `keyCount` distributes over append. -/
lemma keyCount_append (l₁ l₂ : List (Nat × List Row)) (i : Nat) :
    keyCount (l₁ ++ l₂) i = keyCount l₁ i + keyCount l₂ i := by
  simp [keyCount, List.countP_append]

/-- `keyCount` of a single entry. -/
lemma keyCount_singleton (i : Nat) (rows : List Row) (j : Nat) :
    keyCount [(i, rows)] j = if i = j then 1 else 0 := by
  by_cases h : i = j <;> simp [keyCount, h]

/-- The run-time invariant of the concurrent section, preserved by every
interleaving step. -/
structure Inv (cfg : RunCfg) (s : SysState) : Prop where
  /-- one goroutine per application. -/
  lenEq : s.phases.length = cfg.apps.length
  /-- the occupied semaphore slots are exactly the ticket holders. -/
  semEq : s.sem = holdingCount s.phases
  /-- the semaphore never exceeds its capacity. -/
  semLe : s.sem ≤ semCapacity
  /-- every channel entry is the successful outcome of its sender. -/
  chanOK : ∀ e ∈ s.chan, ∃ app, cfg.apps[e.1]? = some app ∧
      processApp cfg.env cfg.orgMap app = TaskOutcome.success e.2
  /-- goroutine `i` has a channel entry iff it is in the sent phase, and
  then exactly one. -/
  sentCount : ∀ i, keyCount s.chan i =
      (if s.phases[i]? = some Phase.doneSent then 1 else 0)
  /-- a delivering goroutine carries its own successful outcome. -/
  delivOK : ∀ (i : Nat) (rows : List Row),
      s.phases[i]? = some (Phase.delivering rows) →
      ∃ app, cfg.apps[i]? = some app ∧
        processApp cfg.env cfg.orgMap app = TaskOutcome.success rows
  /-- the channel is only ever closed after every goroutine returned. -/
  closedTerm : s.closed = true → ∀ p ∈ s.phases, p.isTerminal = true
  /-- the channel holds one entry per goroutine in the sent phase. -/
  chanLen : s.chan.length = countSent s.phases
  /-- without a cancellation, nobody exits at the acquisition select. -/
  noCancelA : s.canceled = false → ∀ (i : Nat),
      s.phases[i]? ≠ some Phase.doneNoTicket
  /-- without a cancellation, a goroutine that returned without sending
  did so because its own pipeline did not succeed. -/
  noCancelB : s.canceled = false → ∀ (i : Nat),
      s.phases[i]? = some Phase.doneNoSend →
      ∃ app, cfg.apps[i]? = some app ∧
        (processApp cfg.env cfg.orgMap app).isSuccess = false


/-- The initial state satisfies the invariant. -/
lemma inv_init (cfg : RunCfg) : Inv cfg (initState cfg) where
  lenEq := by simp [initState]
  semEq := by
    show (0 : Nat) = holdingCount (List.replicate cfg.apps.length Phase.start)
    rw [holdingCount, Eq.comm, List.countP_eq_zero]
    intro p hp
    rw [List.eq_of_mem_replicate hp]
    simp [Phase.holdsTicket]
  semLe := by show (0 : Nat) ≤ semCapacity; simp
  chanOK := by intro e he; simp [initState] at he
  sentCount := by
    intro i
    show keyCount [] i = _
    by_cases h : i < cfg.apps.length <;>
      simp [initState, keyCount, List.getElem?_replicate, h]
  delivOK := by
    intro i rows h
    simp only [initState, List.getElem?_replicate] at h
    by_cases hi : i < cfg.apps.length <;> simp [hi] at h
  closedTerm := by intro h; simp [initState] at h
  chanLen := by
    show ([] : List (Nat × List Row)).length = countSent _
    rw [countSent, List.length_nil, Eq.comm, List.countP_eq_zero]
    intro p hp
    rw [List.eq_of_mem_replicate hp]
    simp
  noCancelA := by
    intro _ i
    show (List.replicate cfg.apps.length Phase.start)[i]? ≠ _
    by_cases h : i < cfg.apps.length <;> simp [List.getElem?_replicate, h]
  noCancelB := by
    intro _ i h
    simp only [initState, List.getElem?_replicate] at h
    by_cases hi : i < cfg.apps.length <;> simp [hi] at h

/-- Every interleaving step preserves the invariant. -/
lemma inv_step {cfg : RunCfg} {s t : SysState} (H : Inv cfg s)
    (hstep : Step cfg s t) : Inv cfg t := by
  cases hstep with
  | cancel hc =>
    exact {
      lenEq := H.lenEq
      semEq := H.semEq
      semLe := H.semLe
      chanOK := H.chanOK
      sentCount := H.sentCount
      delivOK := H.delivOK
      closedTerm := H.closedTerm
      chanLen := H.chanLen
      noCancelA := by intro h; simp at h
      noCancelB := by intro h; simp at h }
  | acquire i hp hsem =>
    have hlt : i < s.phases.length := (List.getElem?_eq_some.mp hp).1
    have hbal := holdingCount_set s.phases i Phase.acquired Phase.start hp
    have hbal2 := countSent_set s.phases i Phase.acquired Phase.start hp
    simp [Phase.holdsTicket] at hbal
    simp at hbal2
    exact {
      lenEq := by
        show (s.phases.set i Phase.acquired).length = cfg.apps.length
        rw [List.length_set]; exact H.lenEq
      semEq := by
        show s.sem + 1 = holdingCount (s.phases.set i Phase.acquired)
        have h1 := H.semEq
        omega
      semLe := by
        show s.sem + 1 ≤ semCapacity
        omega
      chanOK := H.chanOK
      sentCount := by
        intro j
        show keyCount s.chan j =
          if (s.phases.set i Phase.acquired)[j]? = some Phase.doneSent then 1 else 0
        by_cases hij : j = i
        · subst hij
          rw [List.getElem?_set_self hlt]
          have h2 := H.sentCount j
          rw [hp] at h2
          simpa using h2
        · rw [List.getElem?_set_ne (fun h => hij h.symm)]
          exact H.sentCount j
      delivOK := by
        intro j rows' hj
        replace hj : (s.phases.set i Phase.acquired)[j]? = some (Phase.delivering rows') := hj
        by_cases hij : j = i
        · subst hij; rw [List.getElem?_set_self hlt] at hj; simp at hj
        · rw [List.getElem?_set_ne (fun h => hij h.symm)] at hj
          exact H.delivOK j rows' hj
      closedTerm := by
        intro hcl
        have h2 := H.closedTerm hcl Phase.start (List.getElem?_mem hp)
        simp [Phase.isTerminal] at h2
      chanLen := by
        show s.chan.length = countSent (s.phases.set i Phase.acquired)
        have h1 := H.chanLen
        omega
      noCancelA := by
        intro hcf j
        show (s.phases.set i Phase.acquired)[j]? ≠ some Phase.doneNoTicket
        by_cases hij : j = i
        · subst hij; rw [List.getElem?_set_self hlt]; simp
        · rw [List.getElem?_set_ne (fun h => hij h.symm)]
          exact H.noCancelA hcf j
      noCancelB := by
        intro hcf j hj
        replace hj : (s.phases.set i Phase.acquired)[j]? = some Phase.doneNoSend := hj
        by_cases hij : j = i
        · subst hij; rw [List.getElem?_set_self hlt] at hj; simp at hj
        · rw [List.getElem?_set_ne (fun h => hij h.symm)] at hj
          exact H.noCancelB hcf j hj }
  | cancelWaiting i hp hc =>
    have hlt : i < s.phases.length := (List.getElem?_eq_some.mp hp).1
    have hbal := holdingCount_set s.phases i Phase.doneNoTicket Phase.start hp
    have hbal2 := countSent_set s.phases i Phase.doneNoTicket Phase.start hp
    simp [Phase.holdsTicket] at hbal
    simp at hbal2
    exact {
      lenEq := by
        show (s.phases.set i Phase.doneNoTicket).length = cfg.apps.length
        rw [List.length_set]; exact H.lenEq
      semEq := by
        show s.sem = holdingCount (s.phases.set i Phase.doneNoTicket)
        have h1 := H.semEq
        omega
      semLe := H.semLe
      chanOK := H.chanOK
      sentCount := by
        intro j
        show keyCount s.chan j =
          if (s.phases.set i Phase.doneNoTicket)[j]? = some Phase.doneSent then 1 else 0
        by_cases hij : j = i
        · subst hij
          rw [List.getElem?_set_self hlt]
          have h2 := H.sentCount j
          rw [hp] at h2
          simpa using h2
        · rw [List.getElem?_set_ne (fun h => hij h.symm)]
          exact H.sentCount j
      delivOK := by
        intro j rows' hj
        replace hj : (s.phases.set i Phase.doneNoTicket)[j]? = some (Phase.delivering rows') := hj
        by_cases hij : j = i
        · subst hij; rw [List.getElem?_set_self hlt] at hj; simp at hj
        · rw [List.getElem?_set_ne (fun h => hij h.symm)] at hj
          exact H.delivOK j rows' hj
      closedTerm := by
        intro hcl
        have h2 := H.closedTerm hcl Phase.start (List.getElem?_mem hp)
        simp [Phase.isTerminal] at h2
      chanLen := by
        show s.chan.length = countSent (s.phases.set i Phase.doneNoTicket)
        have h1 := H.chanLen
        omega
      noCancelA := by
        intro h
        have h' : s.canceled = false := h
        exact absurd hc (by rw [h']; simp)
      noCancelB := by
        intro h
        have h' : s.canceled = false := h
        exact absurd hc (by rw [h']; simp) }
  | cancelChecked i hp hc =>
    have hlt : i < s.phases.length := (List.getElem?_eq_some.mp hp).1
    have hbal := holdingCount_set s.phases i Phase.doneNoSend Phase.acquired hp
    have hbal2 := countSent_set s.phases i Phase.doneNoSend Phase.acquired hp
    simp [Phase.holdsTicket] at hbal
    simp at hbal2
    exact {
      lenEq := by
        show (s.phases.set i Phase.doneNoSend).length = cfg.apps.length
        rw [List.length_set]; exact H.lenEq
      semEq := by
        show s.sem - 1 = holdingCount (s.phases.set i Phase.doneNoSend)
        have h1 := H.semEq
        omega
      semLe := by
        show s.sem - 1 ≤ semCapacity
        have h1 := H.semLe
        omega
      chanOK := H.chanOK
      sentCount := by
        intro j
        show keyCount s.chan j =
          if (s.phases.set i Phase.doneNoSend)[j]? = some Phase.doneSent then 1 else 0
        by_cases hij : j = i
        · subst hij
          rw [List.getElem?_set_self hlt]
          have h2 := H.sentCount j
          rw [hp] at h2
          simpa using h2
        · rw [List.getElem?_set_ne (fun h => hij h.symm)]
          exact H.sentCount j
      delivOK := by
        intro j rows' hj
        replace hj : (s.phases.set i Phase.doneNoSend)[j]? = some (Phase.delivering rows') := hj
        by_cases hij : j = i
        · subst hij; rw [List.getElem?_set_self hlt] at hj; simp at hj
        · rw [List.getElem?_set_ne (fun h => hij h.symm)] at hj
          exact H.delivOK j rows' hj
      closedTerm := by
        intro hcl
        have h2 := H.closedTerm hcl Phase.acquired (List.getElem?_mem hp)
        simp [Phase.isTerminal] at h2
      chanLen := by
        show s.chan.length = countSent (s.phases.set i Phase.doneNoSend)
        have h1 := H.chanLen
        omega
      noCancelA := by
        intro h
        have h' : s.canceled = false := h
        exact absurd hc (by rw [h']; simp)
      noCancelB := by
        intro h
        have h' : s.canceled = false := h
        exact absurd hc (by rw [h']; simp) }
  | workFail i app hp hc ha hout =>
    have hlt : i < s.phases.length := (List.getElem?_eq_some.mp hp).1
    have hbal := holdingCount_set s.phases i Phase.doneNoSend Phase.acquired hp
    have hbal2 := countSent_set s.phases i Phase.doneNoSend Phase.acquired hp
    simp [Phase.holdsTicket] at hbal
    simp at hbal2
    exact {
      lenEq := by
        show (s.phases.set i Phase.doneNoSend).length = cfg.apps.length
        rw [List.length_set]; exact H.lenEq
      semEq := by
        show s.sem - 1 = holdingCount (s.phases.set i Phase.doneNoSend)
        have h1 := H.semEq
        omega
      semLe := by
        show s.sem - 1 ≤ semCapacity
        have h1 := H.semLe
        omega
      chanOK := H.chanOK
      sentCount := by
        intro j
        show keyCount s.chan j =
          if (s.phases.set i Phase.doneNoSend)[j]? = some Phase.doneSent then 1 else 0
        by_cases hij : j = i
        · subst hij
          rw [List.getElem?_set_self hlt]
          have h2 := H.sentCount j
          rw [hp] at h2
          simpa using h2
        · rw [List.getElem?_set_ne (fun h => hij h.symm)]
          exact H.sentCount j
      delivOK := by
        intro j rows' hj
        replace hj : (s.phases.set i Phase.doneNoSend)[j]? = some (Phase.delivering rows') := hj
        by_cases hij : j = i
        · subst hij; rw [List.getElem?_set_self hlt] at hj; simp at hj
        · rw [List.getElem?_set_ne (fun h => hij h.symm)] at hj
          exact H.delivOK j rows' hj
      closedTerm := by
        intro hcl
        have h2 := H.closedTerm hcl Phase.acquired (List.getElem?_mem hp)
        simp [Phase.isTerminal] at h2
      chanLen := by
        show s.chan.length = countSent (s.phases.set i Phase.doneNoSend)
        have h1 := H.chanLen
        omega
      noCancelA := by
        intro hcf j
        show (s.phases.set i Phase.doneNoSend)[j]? ≠ some Phase.doneNoTicket
        by_cases hij : j = i
        · subst hij; rw [List.getElem?_set_self hlt]; simp
        · rw [List.getElem?_set_ne (fun h => hij h.symm)]
          exact H.noCancelA hcf j
      noCancelB := by
        intro hcf j hj
        replace hj : (s.phases.set i Phase.doneNoSend)[j]? = some Phase.doneNoSend := hj
        by_cases hij : j = i
        · subst hij; exact ⟨app, ha, hout⟩
        · rw [List.getElem?_set_ne (fun h => hij h.symm)] at hj
          exact H.noCancelB hcf j hj }
  | workSuccess i app rows hp hc ha hout =>
    have hlt : i < s.phases.length := (List.getElem?_eq_some.mp hp).1
    have hbal := holdingCount_set s.phases i (Phase.delivering rows) Phase.acquired hp
    have hbal2 := countSent_set s.phases i (Phase.delivering rows) Phase.acquired hp
    simp [Phase.holdsTicket] at hbal
    simp at hbal2
    exact {
      lenEq := by
        show (s.phases.set i (Phase.delivering rows)).length = cfg.apps.length
        rw [List.length_set]; exact H.lenEq
      semEq := by
        show s.sem = holdingCount (s.phases.set i (Phase.delivering rows))
        have h1 := H.semEq
        omega
      semLe := H.semLe
      chanOK := H.chanOK
      sentCount := by
        intro j
        show keyCount s.chan j =
          if (s.phases.set i (Phase.delivering rows))[j]? = some Phase.doneSent then 1 else 0
        by_cases hij : j = i
        · subst hij
          rw [List.getElem?_set_self hlt]
          have h2 := H.sentCount j
          rw [hp] at h2
          simpa using h2
        · rw [List.getElem?_set_ne (fun h => hij h.symm)]
          exact H.sentCount j
      delivOK := by
        intro j rows' hj
        replace hj : (s.phases.set i (Phase.delivering rows))[j]? = some (Phase.delivering rows') := hj
        by_cases hij : j = i
        · subst hij; rw [List.getElem?_set_self hlt] at hj
          simp only [Option.some.injEq, Phase.delivering.injEq] at hj
          exact ⟨app, ha, hj ▸ hout⟩
        · rw [List.getElem?_set_ne (fun h => hij h.symm)] at hj
          exact H.delivOK j rows' hj
      closedTerm := by
        intro hcl
        have h2 := H.closedTerm hcl Phase.acquired (List.getElem?_mem hp)
        simp [Phase.isTerminal] at h2
      chanLen := by
        show s.chan.length = countSent (s.phases.set i (Phase.delivering rows))
        have h1 := H.chanLen
        omega
      noCancelA := by
        intro hcf j
        show (s.phases.set i (Phase.delivering rows))[j]? ≠ some Phase.doneNoTicket
        by_cases hij : j = i
        · subst hij; rw [List.getElem?_set_self hlt]; simp
        · rw [List.getElem?_set_ne (fun h => hij h.symm)]
          exact H.noCancelA hcf j
      noCancelB := by
        intro hcf j hj
        replace hj : (s.phases.set i (Phase.delivering rows))[j]? = some Phase.doneNoSend := hj
        by_cases hij : j = i
        · subst hij; rw [List.getElem?_set_self hlt] at hj; simp at hj
        · rw [List.getElem?_set_ne (fun h => hij h.symm)] at hj
          exact H.noCancelB hcf j hj }
  | send i rows hp hspace =>
    have hlt : i < s.phases.length := (List.getElem?_eq_some.mp hp).1
    have hbal := holdingCount_set s.phases i Phase.doneSent (Phase.delivering rows) hp
    have hbal2 := countSent_set s.phases i Phase.doneSent (Phase.delivering rows) hp
    simp [Phase.holdsTicket] at hbal
    simp at hbal2
    exact {
      lenEq := by
        show (s.phases.set i Phase.doneSent).length = cfg.apps.length
        rw [List.length_set]; exact H.lenEq
      semEq := by
        show s.sem - 1 = holdingCount (s.phases.set i Phase.doneSent)
        have h1 := H.semEq
        omega
      semLe := by
        show s.sem - 1 ≤ semCapacity
        have h1 := H.semLe
        omega
      chanOK := by
        intro e he
        replace he : e ∈ s.chan ++ [(i, rows)] := he
        rcases List.mem_append.mp he with he' | he'
        · exact H.chanOK e he'
        · rcases List.mem_singleton.mp he' with rfl
          exact H.delivOK i rows hp
      sentCount := by
        intro j
        show keyCount (s.chan ++ [(i, rows)]) j =
          if (s.phases.set i Phase.doneSent)[j]? = some Phase.doneSent then 1 else 0
        rw [keyCount_append]
        by_cases hij : j = i
        · subst hij
          rw [List.getElem?_set_self hlt]
          have h2 := H.sentCount j
          rw [hp] at h2
          simp at h2
          simp [keyCount_singleton, h2]
        · rw [List.getElem?_set_ne (fun h => hij h.symm)]
          have h2 := H.sentCount j
          have h3 : keyCount [(i, rows)] j = 0 := by
            rw [keyCount_singleton]
            simp [Ne.symm hij]
          omega
      delivOK := by
        intro j rows' hj
        replace hj : (s.phases.set i Phase.doneSent)[j]? = some (Phase.delivering rows') := hj
        by_cases hij : j = i
        · subst hij; rw [List.getElem?_set_self hlt] at hj; simp at hj
        · rw [List.getElem?_set_ne (fun h => hij h.symm)] at hj
          exact H.delivOK j rows' hj
      closedTerm := by
        intro hcl
        have h2 := H.closedTerm hcl (Phase.delivering rows) (List.getElem?_mem hp)
        simp [Phase.isTerminal] at h2
      chanLen := by
        show (s.chan ++ [(i, rows)]).length = countSent (s.phases.set i Phase.doneSent)
        have h1 := H.chanLen
        rw [List.length_append, List.length_singleton]
        omega
      noCancelA := by
        intro hcf j
        show (s.phases.set i Phase.doneSent)[j]? ≠ some Phase.doneNoTicket
        by_cases hij : j = i
        · subst hij; rw [List.getElem?_set_self hlt]; simp
        · rw [List.getElem?_set_ne (fun h => hij h.symm)]
          exact H.noCancelA hcf j
      noCancelB := by
        intro hcf j hj
        replace hj : (s.phases.set i Phase.doneSent)[j]? = some Phase.doneNoSend := hj
        by_cases hij : j = i
        · subst hij; rw [List.getElem?_set_self hlt] at hj; simp at hj
        · rw [List.getElem?_set_ne (fun h => hij h.symm)] at hj
          exact H.noCancelB hcf j hj }
  | cancelDelivering i rows hp hc =>
    have hlt : i < s.phases.length := (List.getElem?_eq_some.mp hp).1
    have hbal := holdingCount_set s.phases i Phase.doneNoSend (Phase.delivering rows) hp
    have hbal2 := countSent_set s.phases i Phase.doneNoSend (Phase.delivering rows) hp
    simp [Phase.holdsTicket] at hbal
    simp at hbal2
    exact {
      lenEq := by
        show (s.phases.set i Phase.doneNoSend).length = cfg.apps.length
        rw [List.length_set]; exact H.lenEq
      semEq := by
        show s.sem - 1 = holdingCount (s.phases.set i Phase.doneNoSend)
        have h1 := H.semEq
        omega
      semLe := by
        show s.sem - 1 ≤ semCapacity
        have h1 := H.semLe
        omega
      chanOK := H.chanOK
      sentCount := by
        intro j
        show keyCount s.chan j =
          if (s.phases.set i Phase.doneNoSend)[j]? = some Phase.doneSent then 1 else 0
        by_cases hij : j = i
        · subst hij
          rw [List.getElem?_set_self hlt]
          have h2 := H.sentCount j
          rw [hp] at h2
          simpa using h2
        · rw [List.getElem?_set_ne (fun h => hij h.symm)]
          exact H.sentCount j
      delivOK := by
        intro j rows' hj
        replace hj : (s.phases.set i Phase.doneNoSend)[j]? = some (Phase.delivering rows') := hj
        by_cases hij : j = i
        · subst hij; rw [List.getElem?_set_self hlt] at hj; simp at hj
        · rw [List.getElem?_set_ne (fun h => hij h.symm)] at hj
          exact H.delivOK j rows' hj
      closedTerm := by
        intro hcl
        have h2 := H.closedTerm hcl (Phase.delivering rows) (List.getElem?_mem hp)
        simp [Phase.isTerminal] at h2
      chanLen := by
        show s.chan.length = countSent (s.phases.set i Phase.doneNoSend)
        have h1 := H.chanLen
        omega
      noCancelA := by
        intro h
        have h' : s.canceled = false := h
        exact absurd hc (by rw [h']; simp)
      noCancelB := by
        intro h
        have h' : s.canceled = false := h
        exact absurd hc (by rw [h']; simp) }
  | closeChan hterm hcl =>
    exact {
      lenEq := H.lenEq
      semEq := H.semEq
      semLe := H.semLe
      chanOK := H.chanOK
      sentCount := H.sentCount
      delivOK := H.delivOK
      closedTerm := fun _ => hterm
      chanLen := H.chanLen
      noCancelA := H.noCancelA
      noCancelB := H.noCancelB }

/-- Every reachable state of the concurrent section satisfies the
invariant. -/
lemma inv_reachable {cfg : RunCfg} {s : SysState} (h : Reachable cfg s) :
    Inv cfg s := by
  unfold Reachable at h
  induction h with
  | refl => exact inv_init cfg
  | tail hab hbc ih => exact inv_step ih hbc

/-! ## Consequences of the invariant for completed, uncanceled runs -/

/-- In a state where every goroutine has returned and the context was
never canceled, goroutine `i` delivered its result iff its pipeline
succeeded. -/
lemma sent_iff_success {cfg : RunCfg} {s : SysState} (H : Inv cfg s)
    (hterm : ∀ p ∈ s.phases, p.isTerminal = true) (hcanc : s.canceled = false)
    {i : Nat} {app : Application} (ha : cfg.apps[i]? = some app) :
    s.phases[i]? = some Phase.doneSent ↔
      (processApp cfg.env cfg.orgMap app).isSuccess = true := by
  have hia : i < cfg.apps.length := (List.getElem?_eq_some.mp ha).1
  have hlt : i < s.phases.length := by rw [H.lenEq]; exact hia
  obtain ⟨p, hp⟩ : ∃ p, s.phases[i]? = some p :=
    ⟨_, List.getElem?_eq_getElem hlt⟩
  have hpt : p.isTerminal = true := hterm p (List.getElem?_mem hp)
  constructor
  · intro hsent
    have hk := H.sentCount i
    rw [hsent] at hk
    simp at hk
    have hpos : 0 < s.chan.countP (fun e => decide (e.1 = i)) := by
      simp only [keyCount] at hk
      omega
    obtain ⟨e, he, hei⟩ := List.countP_pos_iff.mp hpos
    have he1 : e.1 = i := by simpa using hei
    obtain ⟨app', ha', hsucc⟩ := H.chanOK e he
    rw [he1, ha] at ha'
    replace ha' : app = app' := Option.some_inj.mp ha'
    subst ha'
    rw [hsucc]
    rfl
  · intro hsucc
    cases p with
    | doneSent => exact hp
    | doneNoSend =>
      obtain ⟨app', ha', hns⟩ := H.noCancelB hcanc i hp
      rw [ha] at ha'
      replace ha' : app = app' := Option.some_inj.mp ha'
      subst ha'
      rw [hsucc] at hns
      simp at hns
    | doneNoTicket => exact absurd hp (H.noCancelA hcanc i)
    | start => simp [Phase.isTerminal] at hpt
    | acquired => simp [Phase.isTerminal] at hpt
    | delivering rows => simp [Phase.isTerminal] at hpt

/-- In a completed, uncanceled state the channel contains `(i, rows)`
exactly when application `i` exists and its pipeline succeeded with
`rows`. -/
lemma chan_mem_iff {cfg : RunCfg} {s : SysState} (H : Inv cfg s)
    (hterm : ∀ p ∈ s.phases, p.isTerminal = true) (hcanc : s.canceled = false)
    (i : Nat) (rows : List Row) :
    (i, rows) ∈ s.chan ↔
      ∃ app, cfg.apps[i]? = some app ∧
        processApp cfg.env cfg.orgMap app = TaskOutcome.success rows := by
  constructor
  · intro h
    exact H.chanOK (i, rows) h
  · rintro ⟨app, ha, hsucc⟩
    have hsent : s.phases[i]? = some Phase.doneSent :=
      (sent_iff_success H hterm hcanc ha).mpr (by rw [hsucc]; rfl)
    have hk := H.sentCount i
    rw [hsent] at hk
    simp at hk
    have hpos : 0 < s.chan.countP (fun e => decide (e.1 = i)) := by
      simp only [keyCount] at hk
      omega
    obtain ⟨e, he, hei⟩ := List.countP_pos_iff.mp hpos
    obtain ⟨e1, e2⟩ := e
    have he1 : e1 = i := by simpa using hei
    subst he1
    obtain ⟨app', ha', hsucc'⟩ := H.chanOK (e1, e2) he
    simp only at ha'
    rw [ha] at ha'
    replace ha' : app = app' := Option.some_inj.mp ha'
    subst ha'
    rw [hsucc] at hsucc'
    simp only at hsucc'
    injection hsucc' with hr
    rw [hr]
    exact he

/-- A channel in which every goroutine has at most one entry has no
duplicate entries. -/
lemma nodup_of_keyCount_le_one :
    ∀ (l : List (Nat × List Row)), (∀ i, keyCount l i ≤ 1) → l.Nodup := by
  intro l
  induction l with
  | nil => intro _; exact List.nodup_nil
  | cons e rest ih =>
    intro h
    rw [List.nodup_cons]
    constructor
    · intro hmem
      have h1 := h e.1
      have hpos : 0 < rest.countP (fun x => decide (x.1 = e.1)) :=
        List.countP_pos_iff.mpr ⟨e, hmem, by simp⟩
      have hcons : keyCount (e :: rest) e.1 =
          rest.countP (fun x => decide (x.1 = e.1)) + 1 := by
        simp [keyCount, List.countP_cons]
      omega
    · apply ih
      intro i
      have h1 := h i
      simp only [keyCount, List.countP_cons] at h1 ⊢
      omega

/-- The rows carried by a successful outcome, `none` otherwise. -/
def successRows? : TaskOutcome → Option (List Row)
  | .success rows => some rows
  | _ => none

lemma successRows?_eq_some {o : TaskOutcome} {rows : List Row} :
    successRows? o = some rows ↔ o = TaskOutcome.success rows := by
  cases o <;> simp [successRows?]

/-- The reference fan-in content: one `(index, rows)` entry per
application whose pipeline succeeds, indexed from `k`. -/
def successEntriesAux (env : Env) (m : List (String × String)) :
    Nat → List Application → List (Nat × List Row)
  | _, [] => []
  | k, app :: rest =>
    match successRows? (processApp env m app) with
    | some rows => (k, rows) :: successEntriesAux env m (k + 1) rest
    | none => successEntriesAux env m (k + 1) rest

/-- One `(index, rows)` entry per application of the run whose pipeline
succeeds. -/
def successEntries (cfg : RunCfg) : List (Nat × List Row) :=
  successEntriesAux cfg.env cfg.orgMap 0 cfg.apps

lemma mem_successEntriesAux (env : Env) (m : List (String × String)) :
    ∀ (l : List Application) (k i : Nat) (rows : List Row),
      ((i, rows) ∈ successEntriesAux env m k l ↔
        ∃ j app, l[j]? = some app ∧ i = k + j ∧
          processApp env m app = TaskOutcome.success rows) := by
  intro l
  induction l with
  | nil => intro k i rows; simp [successEntriesAux]
  | cons app rest ih =>
    intro k i rows
    cases hsr : successRows? (processApp env m app) with
    | some rows0 =>
      simp only [successEntriesAux, hsr, List.mem_cons]
      constructor
      · intro hmem
        rcases hmem with h | h
        · rw [Prod.mk.injEq] at h
          obtain ⟨rfl, rfl⟩ := h
          exact ⟨0, app, by simp, by simp, successRows?_eq_some.mp hsr⟩
        · obtain ⟨j, app', hj, hi, hs⟩ := (ih (k + 1) i rows).mp h
          exact ⟨j + 1, app', by simpa using hj, by omega, hs⟩
      · rintro ⟨j, app', hj, hi, hs⟩
        cases j with
        | zero =>
          simp only [List.getElem?_cons_zero, Option.some.injEq] at hj
          subst hj
          left
          have h0 := successRows?_eq_some.mp hsr
          rw [hs] at h0
          injection h0 with hr
          rw [Prod.mk.injEq]
          exact ⟨by omega, hr⟩
        | succ j' =>
          right
          exact (ih (k + 1) i rows).mpr ⟨j', app', by simpa using hj, by omega, hs⟩
    | none =>
      simp only [successEntriesAux, hsr]
      rw [ih (k + 1) i rows]
      constructor
      · rintro ⟨j, app', hj, hi, hs⟩
        exact ⟨j + 1, app', by simpa using hj, by omega, hs⟩
      · rintro ⟨j, app', hj, hi, hs⟩
        cases j with
        | zero =>
          simp only [List.getElem?_cons_zero, Option.some.injEq] at hj
          subst hj
          rw [hs] at hsr
          simp [successRows?] at hsr
        | succ j' =>
          exact ⟨j', app', by simpa using hj, by omega, hs⟩

lemma mem_successEntries (cfg : RunCfg) (i : Nat) (rows : List Row) :
    (i, rows) ∈ successEntries cfg ↔
      ∃ app, cfg.apps[i]? = some app ∧
        processApp cfg.env cfg.orgMap app = TaskOutcome.success rows := by
  rw [successEntries, mem_successEntriesAux]
  constructor
  · rintro ⟨j, app, hj, hi, hs⟩
    obtain rfl : i = j := by omega
    exact ⟨app, hj, hs⟩
  · rintro ⟨app, hi, hs⟩
    exact ⟨i, app, hi, by omega, hs⟩

lemma successEntriesAux_key_ge (env : Env) (m : List (String × String))
    (l : List Application) (k i : Nat) (rows : List Row)
    (h : (i, rows) ∈ successEntriesAux env m k l) : k ≤ i := by
  obtain ⟨j, app, _, hi, _⟩ := (mem_successEntriesAux env m l k i rows).mp h
  omega

lemma successEntriesAux_nodup (env : Env) (m : List (String × String)) :
    ∀ (l : List Application) (k : Nat), (successEntriesAux env m k l).Nodup := by
  intro l
  induction l with
  | nil => intro k; simp [successEntriesAux]
  | cons app rest ih =>
    intro k
    cases hsr : successRows? (processApp env m app) with
    | some rows0 =>
      simp only [successEntriesAux, hsr]
      rw [List.nodup_cons]
      refine ⟨?_, ih (k + 1)⟩
      intro hmem
      have := successEntriesAux_key_ge env m rest (k + 1) k rows0 hmem
      omega
    | none =>
      simp only [successEntriesAux, hsr]
      exact ih (k + 1)

/-- In a completed, uncanceled run the channel content is a permutation
of the per-application success entries. -/
lemma chan_perm {cfg : RunCfg} {s : SysState} (H : Inv cfg s)
    (hterm : ∀ p ∈ s.phases, p.isTerminal = true) (hcanc : s.canceled = false) :
    s.chan.Perm (successEntries cfg) := by
  apply List.perm_of_nodup_nodup_toFinset_eq
  · apply nodup_of_keyCount_le_one
    intro i
    rw [H.sentCount i]
    split <;> omega
  · exact successEntriesAux_nodup cfg.env cfg.orgMap cfg.apps 0
  · apply Finset.ext
    intro e
    obtain ⟨i, rows⟩ := e
    rw [List.mem_toFinset, List.mem_toFinset,
      chan_mem_iff H hterm hcanc, mem_successEntries]

lemma successEntriesAux_flatten_length (env : Env) (m : List (String × String)) :
    ∀ (l : List Application) (k : Nat),
      (((successEntriesAux env m k l).map Prod.snd).flatten).length =
        (l.map (fun app => (taskRows (processApp env m app)).length)).sum := by
  intro l
  induction l with
  | nil => intro k; simp [successEntriesAux]
  | cons app rest ih =>
    intro k
    cases ho : processApp env m app <;>
      simp [successEntriesAux, successRows?, ho, taskRows, ih (k + 1)]

/-- In a completed, uncanceled run the aggregate length is the sum of the
per-application contributed row counts. -/
lemma aggregate_length_eq {cfg : RunCfg} {s : SysState} (H : Inv cfg s)
    (hterm : ∀ p ∈ s.phases, p.isTerminal = true) (hcanc : s.canceled = false) :
    (aggregate s).length =
      (cfg.apps.map (fun app =>
        (taskRows (processApp cfg.env cfg.orgMap app)).length)).sum := by
  have hp := chan_perm H hterm hcanc
  have h2 : ((s.chan.map Prod.snd).flatten).Perm
      (((successEntries cfg).map Prod.snd).flatten) := (hp.map Prod.snd).flatten
  rw [aggregate, h2.length_eq, successEntries]
  exact successEntriesAux_flatten_length cfg.env cfg.orgMap cfg.apps 0

/-! ## Properties of the string helpers -/

/-- A successful cut decomposes the input around the separator. -/
lemma cutList_eq_some (sep : List Char) :
    ∀ (l pre post : List Char), cutList sep l = some (pre, post) →
      pre ++ sep ++ post = l := by
  intro l
  induction l with
  | nil =>
    intro pre post h
    simp only [cutList] at h
    split at h
    next hsep =>
      simp only [Option.some.injEq, Prod.mk.injEq] at h
      obtain ⟨h1, h2⟩ := h
      rw [← h1, ← h2, hsep]
      rfl
    next hsep => simp at h
  | cons c cs ih =>
    intro pre post h
    simp only [cutList] at h
    split at h
    next hpre =>
      simp only [Option.some.injEq, Prod.mk.injEq] at h
      obtain ⟨h1, h2⟩ := h
      obtain ⟨t, ht⟩ := List.isPrefixOf_iff_prefix.mp hpre
      rw [← h1, ← h2, ← ht, List.nil_append, List.drop_left]
    next hpre =>
      split at h
      next p0 q0 hcut =>
        simp only [Option.some.injEq, Prod.mk.injEq] at h
        obtain ⟨h1, h2⟩ := h
        have hcs := ih p0 q0 hcut
        rw [← h1, ← h2]
        rw [List.cons_append, List.cons_append, hcs]
      next hcut => simp at h

/-- The cut happens at the first occurrence of the separator: any other
decomposition has a part before the separator at least as long. -/
lemma cutList_minimal (sep : List Char) :
    ∀ (l pre post : List Char), cutList sep l = some (pre, post) →
      ∀ (p q : List Char), p ++ sep ++ q = l → pre.length ≤ p.length := by
  intro l
  induction l with
  | nil =>
    intro pre post h p q hpq
    simp only [cutList] at h
    split at h
    next hsep =>
      simp only [Option.some.injEq, Prod.mk.injEq] at h
      obtain ⟨h1, _⟩ := h
      rw [← h1]
      simp
    next hsep => simp at h
  | cons c cs ih =>
    intro pre post h p q hpq
    simp only [cutList] at h
    split at h
    next hpre =>
      simp only [Option.some.injEq, Prod.mk.injEq] at h
      obtain ⟨h1, _⟩ := h
      rw [← h1]
      simp
    next hpre =>
      split at h
      next p0 q0 hcut =>
        simp only [Option.some.injEq, Prod.mk.injEq] at h
        obtain ⟨h1, _⟩ := h
        cases p with
        | nil =>
          exfalso
          apply hpre
          apply List.isPrefixOf_iff_prefix.mpr
          exact ⟨q, by simpa using hpq⟩
        | cons a p' =>
          simp only [List.cons_append, List.cons.injEq] at hpq
          obtain ⟨rfl, hpq'⟩ := hpq
          have := ih p0 q0 hcut p' q hpq'
          rw [← h1]
          simp
          omega
      next hcut => simp at h

/-- A failed cut means the separator occurs nowhere in the input. -/
lemma cutList_eq_none (sep : List Char) :
    ∀ (l : List Char), cutList sep l = none →
      ∀ (p q : List Char), p ++ sep ++ q ≠ l := by
  intro l
  induction l with
  | nil =>
    intro h p q hpq
    simp only [cutList] at h
    split at h
    next hsep => simp at h
    next hsep =>
      rw [List.append_assoc] at hpq
      obtain ⟨-, h2⟩ := List.append_eq_nil.mp hpq
      obtain ⟨h3, -⟩ := List.append_eq_nil.mp h2
      exact hsep h3
  | cons c cs ih =>
    intro h p q hpq
    simp only [cutList] at h
    split at h
    next hpre => simp at h
    next hpre =>
      split at h
      next p0 q0 hcut => simp at h
      next hcut =>
        cases p with
        | nil =>
          apply hpre
          apply List.isPrefixOf_iff_prefix.mpr
          exact ⟨q, by simpa using hpq⟩
        | cons a p' =>
          simp only [List.cons_append, List.cons.injEq] at hpq
          obtain ⟨rfl, hpq'⟩ := hpq
          exact ih hcut p' q hpq'

/-- A `String.mk` is the empty string exactly when its character list is
empty. -/
lemma mk_eq_empty_iff (l : List Char) : String.mk l = "" ↔ l = [] := by
  constructor
  · intro h
    have h2 : (String.mk l).data = ("" : String).data := by rw [h]
    exact h2
  · rintro rfl
    rfl

/-- `trimSpace` yields the empty string exactly when every character of
the input is white space (in particular for the empty input). -/
lemma trimSpace_eq_empty_iff (s : String) :
    trimSpace s = "" ↔ ∀ c ∈ s.data, goIsSpace c = true := by
  rw [trimSpace, mk_eq_empty_iff, List.reverse_eq_nil_iff,
    List.dropWhile_eq_nil_iff]
  constructor
  · intro h c hc
    have hsplit : c ∈ s.data.takeWhile goIsSpace ++ s.data.dropWhile goIsSpace := by
      rw [List.takeWhile_append_dropWhile]
      exact hc
    rcases List.mem_append.mp hsplit with h1 | h1
    · exact List.mem_takeWhile_imp h1
    · exact h c (List.mem_reverse.mpr h1)
  · intro h a ha
    exact h a ((List.dropWhile_sublist goIsSpace).subset (List.mem_reverse.mp ha))

/-! ## The sequential prelude and epilogue (lines 38-67 and 179-199) -/

/-- Model of Go `path/filepath.Clean` for slash-separated paths: drop
empty and `.` components, resolve `..` against preceding components, keep
leading `..`s of relative paths, return `.` for an empty relative result
and `/` for an empty rooted result. -/
def filepathClean (p : String) : String :=
  if p = "" then "."
  else
    let rooted := p.startsWith "/"
    let segs := (p.splitOn "/").filter (fun s => s ≠ "" && s ≠ ".")
    let out := segs.foldl
      (fun acc s =>
        if s = ".." then
          match acc with
          | [] => if rooted then [] else [".."]
          | a :: rest => if a = ".." then s :: a :: rest else rest
        else s :: acc) []
    let body := String.intercalate "/" out.reverse
    if rooted then "/" ++ body
    else if body = "" then "." else body

/-- Model of Go `path/filepath.Join dir name` (line 190): concatenate the
non-empty parts with a slash and clean the result; all-empty input gives
the empty path. -/
def filepathJoin (a b : String) : String :=
  if a = "" && b = "" then ""
  else if a = "" then filepathClean b
  else if b = "" then filepathClean a
  else filepathClean (a ++ "/" ++ b)

/-- The `(path, error)` pair returned by `GenerateLatestPolicyReport`;
`err = none` models a `nil` Go error. -/
structure GoReturn where
  path : String
  err : Option String
deriving DecidableEq, Repr

/-- The immutable configuration of the concurrent section for a run that
fetched `apps` and `orgs`: lines 69-72 build the organization map before
fan-out; it is never modified afterwards. -/
def mkRunCfg (env : Env) (apps : List Application)
    (orgs : List Organization) : RunCfg :=
  { env := env, apps := apps, orgMap := buildOrgMap orgs }

/-- The whole of `GenerateLatestPolicyReport` (lines 38-199) as a relation
from the oracle to the returned `(path, error)` pair: fetch the
application list (fatal on error), fail on an empty list, fetch the
organization list (fatal on error), build the organization map, run the
concurrent section to a state whose channel has been closed (which the
drain loop of lines 181-184 observes), then write the aggregate to
`filepath.Join(cfg.OutputDir, filename)` (fatal on error) and return that
path. Fatal returns carry the empty path and a wrapped message. -/
inductive GenerateLatestPolicyReport (env : Env) (cfg : Config)
    (orgID : Option String) (filename : String) : GoReturn → Prop where
  /-- line 52-55: the application fetch failed. -/
  | appsError (e : String)
      (h : env.getApplications orgID = Except.error e) :
      GenerateLatestPolicyReport env cfg orgID filename
        ⟨"", some ("get applications: " ++ e)⟩
  /-- lines 58-61: no applications found. -/
  | noApps (h : env.getApplications orgID = Except.ok []) :
      GenerateLatestPolicyReport env cfg orgID filename
        ⟨"", some "no applications found"⟩
  /-- lines 64-67: the organization fetch failed. -/
  | orgsError (apps : List Application) (e : String)
      (h1 : env.getApplications orgID = Except.ok apps) (h2 : apps ≠ [])
      (h3 : env.getOrganizations = Except.error e) :
      GenerateLatestPolicyReport env cfg orgID filename
        ⟨"", some ("get organizations: " ++ e)⟩
  /-- lines 193-194: the concurrent section completed and the CSV write
  failed. -/
  | csvError (apps : List Application) (orgs : List Organization)
      (s : SysState) (e : String)
      (h1 : env.getApplications orgID = Except.ok apps) (h2 : apps ≠ [])
      (h3 : env.getOrganizations = Except.ok orgs)
      (h4 : Reachable (mkRunCfg env apps orgs) s) (h5 : s.closed = true)
      (h6 : env.writeCSV (filepathJoin cfg.outputDir filename) (aggregate s) =
        some e) :
      GenerateLatestPolicyReport env cfg orgID filename
        ⟨"", some ("write csv: " ++ e)⟩
  /-- line 199: the concurrent section completed, the CSV write succeeded
  and the joined path is returned. -/
  | ok (apps : List Application) (orgs : List Organization) (s : SysState)
      (h1 : env.getApplications orgID = Except.ok apps) (h2 : apps ≠ [])
      (h3 : env.getOrganizations = Except.ok orgs)
      (h4 : Reachable (mkRunCfg env apps orgs) s) (h5 : s.closed = true)
      (h6 : env.writeCSV (filepathJoin cfg.outputDir filename) (aggregate s) =
        none) :
      GenerateLatestPolicyReport env cfg orgID filename
        ⟨filepathJoin cfg.outputDir filename, none⟩

/-! ## Concrete fixtures used by the witnesses and counterexamples -/

/-- A sample organization. -/
def orgOne : Organization := ⟨"org1", "Org One"⟩

/-- A sample application whose pipeline succeeds under `envW`. -/
def appA : Application := ⟨"idA", "pubA", "org1"⟩

/-- A sample application whose metadata fetch fails under `envW`. -/
def appB : Application := ⟨"idB", "pubB", "org9"⟩

/-- A sample violation record. -/
def rowX : ClientViolationRow :=
  ⟨"pubA", "Org One", "Security-High", "maven", "log4j-core-2.14.1", "9",
    "fail", "CVE", "cond", "CVE-2021-44228"⟩

/-- Sample latest-report metadata with a well-formed report URL. -/
def infoA : ReportInfo := ⟨"apps/pubA/report/abc123", "build"⟩

/-- The report rows `appA` contributes under `envW`. -/
def rowsA : List Row := [toReportRow rowX]

/-- An oracle under which `appA` succeeds with `rowsA` and `appB` fails at
the metadata fetch. -/
def envW : Env where
  getApplications := fun _ => Except.ok [appA, appB]
  getOrganizations := Except.ok [orgOne]
  getLatestReportInfo := fun a =>
    if a = "idA" then Except.ok (some infoA) else Except.error "boom"
  getPolicyViolations := fun _ _ _ => Except.ok [rowX]
  writeCSV := fun _ _ => none

/-- A sample configuration. -/
def cfgW : Config := ⟨"reports_output", 10⟩

/-- An oracle whose application fetch fails. -/
def envErr : Env where
  getApplications := fun _ => Except.error "boom"
  getOrganizations := Except.ok []
  getLatestReportInfo := fun _ => Except.ok none
  getPolicyViolations := fun _ _ _ => Except.ok []
  writeCSV := fun _ _ => none

/-- An oracle whose application fetch returns the empty list. -/
def envEmpty : Env where
  getApplications := fun _ => Except.ok []
  getOrganizations := Except.ok [orgOne]
  getLatestReportInfo := fun _ => Except.ok (some infoA)
  getPolicyViolations := fun _ _ _ => Except.ok [rowX]
  writeCSV := fun _ _ => none

/-- An oracle whose latest-report metadata is a blank URL. -/
def envBlank : Env where
  getApplications := fun _ => Except.ok [appA]
  getOrganizations := Except.ok [orgOne]
  getLatestReportInfo := fun _ => Except.ok (some ⟨"  ", "build"⟩)
  getPolicyViolations := fun _ _ _ => Except.ok [rowX]
  writeCSV := fun _ _ => none

/-! ## Claims C8, C9, C4 -/

/-- C8 (counterexample): a configuration that sets the concurrency
ceiling to 3 is ignored — the orchestrator still uses the hard-coded
semaphore capacity 10, so the ceiling is not consumed from
configuration. -/
theorem C8_counterexample :
    orchestratorCeiling ⟨"reports_output", 3⟩ = 10 ∧ (3 : Nat) ≠ 10 :=
  ⟨rfl, by decide⟩

/-- C8 (amended): the concurrency ceiling used by the orchestrator is the
hard-coded constant 10 of line 80; it is identical for every
configuration and is not consumed from configuration. -/
theorem C8_hardcoded_ceiling (c1 c2 : Config) :
    orchestratorCeiling c1 = 10 ∧
    orchestratorCeiling c1 = orchestratorCeiling c2 ∧
    semCapacity = 10 :=
  ⟨rfl, rfl, rfl⟩

/-- C9: every error return of `GenerateLatestPolicyReport` carries the
empty path, and the success return carries exactly
`filepath.Join(cfg.OutputDir, filename)`. -/
theorem C9_error_path (env : Env) (cfg : Config) (orgID : Option String)
    (filename : String) (r : GoReturn)
    (h : GenerateLatestPolicyReport env cfg orgID filename r) :
    (r.err ≠ none → r.path = "") ∧
    (r.err = none → r.path = filepathJoin cfg.outputDir filename) := by
  cases h <;> refine ⟨fun h' => ?_, fun h' => ?_⟩ <;>
    first
    | rfl
    | simp at h'

/-- C9 witness: the theorem applied to a concrete failing run. -/
theorem C9_error_path_witness :
    ((GoReturn.mk "" (some ("get applications: " ++ "boom"))).err ≠ none →
      (GoReturn.mk "" (some ("get applications: " ++ "boom"))).path = "") ∧
    ((GoReturn.mk "" (some ("get applications: " ++ "boom"))).err = none →
      (GoReturn.mk "" (some ("get applications: " ++ "boom"))).path =
        filepathJoin cfgW.outputDir "report.csv") :=
  C9_error_path envErr cfgW none "report.csv" _
    (GenerateLatestPolicyReport.appsError "boom" rfl)

/-- C4: when the fetched application list is empty,
`GenerateLatestPolicyReport` has exactly one possible return — the
"no applications found" error with empty path. The statement quantifies
over the whole oracle, so the outcome is independent of the
report-metadata and violation oracles: no such remote call can influence
(or be required for) the result, and no run state is ever entered. -/
theorem C4_empty_apps (env : Env) (cfg : Config) (orgID : Option String)
    (filename : String) (r : GoReturn)
    (hempty : env.getApplications orgID = Except.ok []) :
    GenerateLatestPolicyReport env cfg orgID filename r ↔
      r = ⟨"", some "no applications found"⟩ := by
  constructor
  · intro h
    cases h with
    | appsError e h => rw [hempty] at h; simp at h
    | noApps h => rfl
    | orgsError apps e h1 h2 h3 =>
      rw [hempty] at h1
      simp only [Except.ok.injEq] at h1
      exact absurd h1.symm h2
    | csvError apps orgs s e h1 h2 h3 h4 h5 h6 =>
      rw [hempty] at h1
      simp only [Except.ok.injEq] at h1
      exact absurd h1.symm h2
    | ok apps orgs s h1 h2 h3 h4 h5 h6 =>
      rw [hempty] at h1
      simp only [Except.ok.injEq] at h1
      exact absurd h1.symm h2
  · rintro rfl
    exact GenerateLatestPolicyReport.noApps hempty

/-- C4 witness: the theorem applied to a concrete empty-list oracle. -/
theorem C4_empty_apps_witness :
    GenerateLatestPolicyReport envEmpty cfgW none "report.csv"
      ⟨"", some "no applications found"⟩ ↔
    (⟨"", some "no applications found"⟩ : GoReturn) =
      ⟨"", some "no applications found"⟩ :=
  C4_empty_apps envEmpty cfgW none "report.csv" _ rfl

/-! ## Claims C7 and C5 -/

/-- Looking a key up in the key-value image of an organization list finds
the name of the first matching organization. -/
lemma lookup_map_orgs (oid : String) :
    ∀ (l : List Organization),
      List.lookup oid (l.map (fun o => (o.orgId, o.name))) =
        (l.find? (fun o => o.orgId == oid)).map Organization.name := by
  intro l
  induction l with
  | nil => simp
  | cons o rest ih =>
    by_cases h : oid = o.orgId
    · subst h
      simp [List.lookup, List.find?]
    · have h1 : (oid == o.orgId) = false := by simpa using h
      have h2 : (o.orgId == oid) = false := by simpa using Ne.symm h
      simp [List.lookup, List.find?, h1, h2, ih]

/-- Once the metadata, blank and parse stages pass, the task outcome is
entirely decided by the violation fetch made with the resolved
organization name: an organization-name lookup miss never fails the
task. -/
lemma processApp_success_shape (env : Env) (m : List (String × String))
    (app : Application) (info : ReportInfo) (pre rid : String)
    (hinfo : env.getLatestReportInfo app.appId = Except.ok (some info))
    (hblank : trimSpace info.reportHTMLURL ≠ "")
    (hcut : stringsCut info.reportHTMLURL reportMarker = some (pre, rid))
    (hrid : rid ≠ "") :
    processApp env m app =
      (match env.getPolicyViolations app.publicId rid
          (resolveOrgName m app.organizationId) with
        | Except.error e => TaskOutcome.violationsError e
        | Except.ok clientRows =>
            TaskOutcome.success (clientRows.map toReportRow)) := by
  simp [processApp, hinfo, hblank, hcut, hrid]

/-- C7: the ID-to-name table is built once from the organization list
before fan-out (`mkRunCfg` places it in the immutable run configuration);
a lookup hit resolves to the table's value — the name of the last
organization with that ID, matching Go map insertion order — and a lookup
miss falls back to the raw organization ID; in either case the task
proceeds to the violation fetch, so the miss is non-fatal. -/
theorem C7_org_resolution :
    (∀ (env : Env) (apps : List Application) (orgs : List Organization),
      (mkRunCfg env apps orgs).orgMap = buildOrgMap orgs) ∧
    (∀ (orgs : List Organization) (oid : String),
      (∀ o ∈ orgs, o.orgId ≠ oid) →
      resolveOrgName (buildOrgMap orgs) oid = oid) ∧
    (∀ (orgs : List Organization) (oid : String) (o' : Organization),
      orgs.reverse.find? (fun o => o.orgId == oid) = some o' →
      resolveOrgName (buildOrgMap orgs) oid = o'.name) ∧
    (∀ (env : Env) (m : List (String × String)) (app : Application)
        (info : ReportInfo) (pre rid : String),
      env.getLatestReportInfo app.appId = Except.ok (some info) →
      trimSpace info.reportHTMLURL ≠ "" →
      stringsCut info.reportHTMLURL reportMarker = some (pre, rid) →
      rid ≠ "" →
      processApp env m app =
        (match env.getPolicyViolations app.publicId rid
            (resolveOrgName m app.organizationId) with
          | Except.error e => TaskOutcome.violationsError e
          | Except.ok clientRows =>
              TaskOutcome.success (clientRows.map toReportRow))) := by
  refine ⟨fun _ _ _ => rfl, ?_, ?_, processApp_success_shape⟩
  · intro orgs oid hno
    rw [resolveOrgName, buildOrgMap, ← List.map_reverse, lookup_map_orgs]
    have hfind : orgs.reverse.find? (fun o => o.orgId == oid) = none := by
      rw [List.find?_eq_none]
      intro o ho
      simpa using hno o (List.mem_reverse.mp ho)
    rw [hfind]
    rfl
  · intro orgs oid o' hfind
    rw [resolveOrgName, buildOrgMap, ← List.map_reverse, lookup_map_orgs, hfind]
    rfl

/-- C7 witness: a lookup miss falls back to the raw ID, and with two
organizations sharing an ID the later one wins, as in a Go map. -/
theorem C7_org_resolution_witness :
    resolveOrgName (buildOrgMap [orgOne]) "org9" = "org9" ∧
    resolveOrgName (buildOrgMap [⟨"org1", "Org One"⟩, ⟨"org1", "Org Two"⟩])
      "org1" = "Org Two" :=
  ⟨C7_org_resolution.2.1 [orgOne] "org9" (by decide),
    C7_org_resolution.2.2.1 [⟨"org1", "Org One"⟩, ⟨"org1", "Org Two"⟩]
      "org1" ⟨"org1", "Org Two"⟩ (by decide)⟩

/-- C5: absent metadata, or an empty or whitespace-only report-location
field, makes the task exit with the benign `noReport` outcome (zero rows,
distinct from the error outcomes); a non-blank field in which the
`"/report/"` marker does not occur, or whose text after the marker is
empty, makes it exit with `parseError` (zero rows); and an extracted
report ID is exactly the text after the first occurrence of the marker.
The blank check precedes the marker check, as in the source. -/
theorem C5_report_location (env : Env) (m : List (String × String))
    (app : Application) :
    (env.getLatestReportInfo app.appId = Except.ok none →
      processApp env m app = TaskOutcome.noReport) ∧
    (∀ info, env.getLatestReportInfo app.appId = Except.ok (some info) →
      (∀ c ∈ info.reportHTMLURL.data, goIsSpace c = true) →
      processApp env m app = TaskOutcome.noReport) ∧
    (∀ info, env.getLatestReportInfo app.appId = Except.ok (some info) →
      trimSpace info.reportHTMLURL ≠ "" →
      (∀ p q : List Char,
        p ++ reportMarker.data ++ q ≠ info.reportHTMLURL.data) →
      processApp env m app = TaskOutcome.parseError) ∧
    (∀ info pre, env.getLatestReportInfo app.appId = Except.ok (some info) →
      trimSpace info.reportHTMLURL ≠ "" →
      stringsCut info.reportHTMLURL reportMarker = some (pre, "") →
      processApp env m app = TaskOutcome.parseError) ∧
    (∀ (info : ReportInfo) (pre rid : String),
      stringsCut info.reportHTMLURL reportMarker = some (pre, rid) →
      pre.data ++ reportMarker.data ++ rid.data = info.reportHTMLURL.data ∧
      (∀ p q : List Char,
        p ++ reportMarker.data ++ q = info.reportHTMLURL.data →
        pre.data.length ≤ p.length)) ∧
    (processApp env m app = TaskOutcome.noReport →
      taskRows (processApp env m app) = []) ∧
    (processApp env m app = TaskOutcome.parseError →
      taskRows (processApp env m app) = []) := by
  refine ⟨?_, ?_, ?_, ?_, ?_, ?_, ?_⟩
  · intro h
    simp [processApp, h]
  · intro info hinfo hsp
    have hblank : trimSpace info.reportHTMLURL = "" :=
      (trimSpace_eq_empty_iff _).mpr hsp
    simp [processApp, hinfo, hblank]
  · intro info hinfo hblank hnodecomp
    have hcut : cutList reportMarker.data info.reportHTMLURL.data = none := by
      cases hc : cutList reportMarker.data info.reportHTMLURL.data with
      | none => rfl
      | some pq =>
        obtain ⟨l1, l2⟩ := pq
        exact absurd
          (cutList_eq_some reportMarker.data info.reportHTMLURL.data l1 l2 hc)
          (hnodecomp l1 l2)
    have hsc : stringsCut info.reportHTMLURL reportMarker = none := by
      simp [stringsCut, hcut]
    simp [processApp, hinfo, hblank, hsc]
  · intro info pre hinfo hblank hcut
    simp [processApp, hinfo, hblank, hcut]
  · intro info pre rid hcut
    simp only [stringsCut, Option.map_eq_some'] at hcut
    obtain ⟨⟨l1, l2⟩, hc, hf⟩ := hcut
    simp only [Prod.mk.injEq] at hf
    obtain ⟨hf1, hf2⟩ := hf
    constructor
    · have h := cutList_eq_some reportMarker.data info.reportHTMLURL.data l1 l2 hc
      rw [← hf1, ← hf2]
      exact h
    · intro p q hpq
      have h := cutList_minimal reportMarker.data info.reportHTMLURL.data
        l1 l2 hc p q hpq
      rw [← hf1]
      exact h
  · intro h
    rw [h]
    rfl
  · intro h
    rw [h]
    rfl

/-- C5 witness: the theorem applied to a whitespace-only report location
and to a concrete successful cut. -/
theorem C5_report_location_witness :
    processApp envBlank [] appA = TaskOutcome.noReport ∧
    ("apps/pubA".data ++ reportMarker.data ++ "abc123".data =
        infoA.reportHTMLURL.data ∧
      (∀ p q : List Char,
        p ++ reportMarker.data ++ q = infoA.reportHTMLURL.data →
        "apps/pubA".data.length ≤ p.length)) :=
  ⟨(C5_report_location envBlank [] appA).2.1 ⟨"  ", "build"⟩ rfl (by decide),
    (C5_report_location envBlank [] appA).2.2.2.2.1 infoA "apps/pubA" "abc123"
      (by decide)⟩

/-! ## Claims about the concurrent section: C2, C3, C10, C1, C6 -/

/-- A list containing an element that fails the predicate has strictly
fewer predicate-satisfying elements than elements. -/
lemma countP_lt_length {α : Type} (p : α → Bool) :
    ∀ (l : List α) (a : α), a ∈ l → p a = false → l.countP p < l.length := by
  intro l
  induction l with
  | nil => intro a ha _; simp at ha
  | cons x xs ih =>
    intro a ha hpa
    rw [List.countP_cons, List.length_cons]
    rcases List.mem_cons.mp ha with rfl | ha'
    · have h1 : xs.countP p ≤ xs.length := List.countP_le_length p
      rw [hpa]
      simp
      omega
    · have h1 := ih a ha' hpa
      have h2 : (if p x = true then 1 else 0) ≤ 1 := by split <;> omega
      omega

/-- A successful pipeline outcome consists of the fetched violation rows
of some violation call, converted in order. -/
lemma success_shape (env : Env) (m : List (String × String))
    (app : Application) (rows : List Row)
    (h : processApp env m app = TaskOutcome.success rows) :
    ∃ (rid orgName : String) (cr : List ClientViolationRow),
      env.getPolicyViolations app.publicId rid orgName = Except.ok cr ∧
      rows = cr.map toReportRow := by
  cases hinfo : env.getLatestReportInfo app.appId with
  | error e => simp [processApp, hinfo] at h
  | ok oinfo =>
    cases oinfo with
    | none => simp [processApp, hinfo] at h
    | some info =>
      by_cases hblank : trimSpace info.reportHTMLURL = ""
      · simp [processApp, hinfo, hblank] at h
      · cases hcut : stringsCut info.reportHTMLURL reportMarker with
        | none => simp [processApp, hinfo, hblank, hcut] at h
        | some pr =>
          obtain ⟨pre, rid⟩ := pr
          by_cases hrid : rid = ""
          · simp [processApp, hinfo, hblank, hcut, hrid] at h
          · cases hviol : env.getPolicyViolations app.publicId rid
                (resolveOrgName m app.organizationId) with
            | error e =>
              simp [processApp, hinfo, hblank, hcut, hrid, hviol] at h
            | ok cr =>
              simp [processApp, hinfo, hblank, hcut, hrid, hviol] at h
              exact ⟨rid, resolveOrgName m app.organizationId, cr, hviol, h.symm⟩

/-- The run configuration of the fixture run: `appA` succeeds, `appB`
fails at the metadata fetch. -/
def cfgW1 : RunCfg := mkRunCfg envW [appA, appB] [orgOne]

/-- The final state of the fixture run: `appA` delivered `rowsA`, `appB`
delivered nothing, the channel is closed, no cancellation occurred. -/
def sF1 : SysState :=
  ⟨[Phase.doneSent, Phase.doneNoSend], 0, [(0, rowsA)], true, false⟩

/-- An explicit interleaving of the fixture run reaching `sF1`. -/
lemma reachW1 : Reachable cfgW1 sF1 := by
  have t1 : Step cfgW1 (initState cfgW1)
      ⟨[Phase.acquired, Phase.start], 1, [], false, false⟩ :=
    Step.acquire _ 0 (by decide) (by decide)
  have t2 : Step cfgW1 ⟨[Phase.acquired, Phase.start], 1, [], false, false⟩
      ⟨[Phase.delivering rowsA, Phase.start], 1, [], false, false⟩ :=
    Step.workSuccess _ 0 appA rowsA (by decide) (by decide) (by decide)
      (by decide)
  have t3 : Step cfgW1
      ⟨[Phase.delivering rowsA, Phase.start], 1, [], false, false⟩
      ⟨[Phase.doneSent, Phase.start], 0, [(0, rowsA)], false, false⟩ :=
    Step.send _ 0 rowsA (by decide) (by decide)
  have t4 : Step cfgW1
      ⟨[Phase.doneSent, Phase.start], 0, [(0, rowsA)], false, false⟩
      ⟨[Phase.doneSent, Phase.acquired], 1, [(0, rowsA)], false, false⟩ :=
    Step.acquire _ 1 (by decide) (by decide)
  have t5 : Step cfgW1
      ⟨[Phase.doneSent, Phase.acquired], 1, [(0, rowsA)], false, false⟩
      ⟨[Phase.doneSent, Phase.doneNoSend], 0, [(0, rowsA)], false, false⟩ :=
    Step.workFail _ 1 appB (by decide) (by decide) (by decide) (by decide)
  have t6 : Step cfgW1
      ⟨[Phase.doneSent, Phase.doneNoSend], 0, [(0, rowsA)], false, false⟩
      sF1 :=
    Step.closeChan _ (by decide) (by decide)
  exact Relation.ReflTransGen.tail
    (Relation.ReflTransGen.tail
      (Relation.ReflTransGen.tail
        (Relation.ReflTransGen.tail
          (Relation.ReflTransGen.tail
            (Relation.ReflTransGen.tail Relation.ReflTransGen.refl t1)
            t2) t3) t4) t5) t6

/-- A one-application run whose single task fails at the metadata fetch. -/
def cfgC3 : RunCfg := mkRunCfg envW [appB] [orgOne]

/-- Its final state: the task returned without sending, the channel was
closed empty, no cancellation occurred. -/
def sC3 : SysState := ⟨[Phase.doneNoSend], 0, [], true, false⟩

/-- An explicit interleaving of the failing-task run reaching `sC3`. -/
lemma reachC3 : Reachable cfgC3 sC3 := by
  have t1 : Step cfgC3 (initState cfgC3)
      ⟨[Phase.acquired], 1, [], false, false⟩ :=
    Step.acquire _ 0 (by decide) (by decide)
  have t2 : Step cfgC3 ⟨[Phase.acquired], 1, [], false, false⟩
      ⟨[Phase.doneNoSend], 0, [], false, false⟩ :=
    Step.workFail _ 0 appB (by decide) (by decide) (by decide) (by decide)
  have t3 : Step cfgC3 ⟨[Phase.doneNoSend], 0, [], false, false⟩ sC3 :=
    Step.closeChan _ (by decide) (by decide)
  exact Relation.ReflTransGen.tail
    (Relation.ReflTransGen.tail
      (Relation.ReflTransGen.tail Relation.ReflTransGen.refl t1) t2) t3

/-- An oracle under which every application succeeds. -/
def envAll : Env where
  getApplications := fun _ => Except.ok [appA]
  getOrganizations := Except.ok [orgOne]
  getLatestReportInfo := fun _ => Except.ok (some infoA)
  getPolicyViolations := fun _ _ _ => Except.ok [rowX]
  writeCSV := fun _ _ => none

/-- The all-success run configuration. -/
def cfgAll : RunCfg := mkRunCfg envAll [appA] [orgOne]

/-- Its final state: the single task delivered `rowsA`. -/
def sAll : SysState := ⟨[Phase.doneSent], 0, [(0, rowsA)], true, false⟩

/-- An explicit interleaving of the all-success run reaching `sAll`. -/
lemma reachAll : Reachable cfgAll sAll := by
  have t1 : Step cfgAll (initState cfgAll)
      ⟨[Phase.acquired], 1, [], false, false⟩ :=
    Step.acquire _ 0 (by decide) (by decide)
  have t2 : Step cfgAll ⟨[Phase.acquired], 1, [], false, false⟩
      ⟨[Phase.delivering rowsA], 1, [], false, false⟩ :=
    Step.workSuccess _ 0 appA rowsA (by decide) (by decide) (by decide)
      (by decide)
  have t3 : Step cfgAll ⟨[Phase.delivering rowsA], 1, [], false, false⟩
      ⟨[Phase.doneSent], 0, [(0, rowsA)], false, false⟩ :=
    Step.send _ 0 rowsA (by decide) (by decide)
  have t4 : Step cfgAll ⟨[Phase.doneSent], 0, [(0, rowsA)], false, false⟩
      sAll :=
    Step.closeChan _ (by decide) (by decide)
  exact Relation.ReflTransGen.tail
    (Relation.ReflTransGen.tail
      (Relation.ReflTransGen.tail
        (Relation.ReflTransGen.tail Relation.ReflTransGen.refl t1) t2) t3) t4

/-- C2: in every reachable state of a run, the occupied semaphore slots
are exactly the goroutines between ticket acquisition and release, their
number never exceeds the hard-coded capacity 10, and once every goroutine
has returned every ticket has been released. A goroutine that exits at
the acquisition select (`doneNoTicket`) holds no ticket, so it releases
none. -/
theorem C2_admission_bound (cfg : RunCfg) (s : SysState)
    (h : Reachable cfg s) :
    s.sem = holdingCount s.phases ∧
    s.sem ≤ semCapacity ∧ semCapacity = 10 ∧
    ((∀ p ∈ s.phases, p.isTerminal = true) → s.sem = 0) := by
  have H := inv_reachable h
  refine ⟨H.semEq, H.semLe, rfl, ?_⟩
  intro hterm
  rw [H.semEq, holdingCount, List.countP_eq_zero]
  intro p hp
  have ht := hterm p hp
  cases p with
  | start => simp [Phase.isTerminal] at ht
  | acquired => simp [Phase.isTerminal] at ht
  | delivering rows => simp [Phase.isTerminal] at ht
  | doneSent => simp [Phase.holdsTicket]
  | doneNoSend => simp [Phase.holdsTicket]
  | doneNoTicket => simp [Phase.holdsTicket]

/-- C2 witness: the theorem applied to the initial state of the fixture
run. -/
theorem C2_admission_bound_witness :
    (initState cfgW1).sem = holdingCount (initState cfgW1).phases ∧
    (initState cfgW1).sem ≤ semCapacity ∧ semCapacity = 10 ∧
    ((∀ p ∈ (initState cfgW1).phases, p.isTerminal = true) →
      (initState cfgW1).sem = 0) :=
  C2_admission_bound cfgW1 (initState cfgW1) Relation.ReflTransGen.refl

/-- C3 counterexample: the claim that every launched task not canceled
during acquisition produces exactly one result on the channel is false —
in the closed final state of a run whose single task fails at the
metadata fetch (with no cancellation at all), the task is terminal in
`doneNoSend` and the channel holds no entry for it. -/
theorem C3_counterexample :
    ¬ (∀ (cfg : RunCfg) (s : SysState), Reachable cfg s → s.closed = true →
        ∀ (i : Nat), i < cfg.apps.length →
          s.phases[i]? ≠ some Phase.doneNoTicket →
          keyCount s.chan i = 1) := by
  intro hclaim
  have h := hclaim cfgC3 sC3 reachC3 rfl 0 (by decide) (by decide)
  revert h
  decide

/-- C3 (amended): every launched task sends at most one result on the
aggregation channel (never duplicated); the channel is closed only after
every task has reached a terminal state; a task has exactly one channel
entry iff it reached the delivered phase; and in an uncanceled completed
run a task delivers exactly one result iff its pipeline succeeded —
failed or skipped tasks deliver nothing (no error value is sent). -/
theorem C3_channel_protocol (cfg : RunCfg) (s : SysState)
    (h : Reachable cfg s) :
    (∀ i, keyCount s.chan i ≤ 1) ∧
    (s.closed = true → ∀ p ∈ s.phases, p.isTerminal = true) ∧
    (∀ i, s.phases[i]? = some Phase.doneSent ↔ keyCount s.chan i = 1) ∧
    (s.canceled = false → (∀ p ∈ s.phases, p.isTerminal = true) →
      ∀ (i : Nat) (app : Application), cfg.apps[i]? = some app →
        (keyCount s.chan i = 1 ↔
          (processApp cfg.env cfg.orgMap app).isSuccess = true)) := by
  have H := inv_reachable h
  refine ⟨?_, H.closedTerm, ?_, ?_⟩
  · intro i
    rw [H.sentCount i]
    split <;> omega
  · intro i
    rw [H.sentCount i]
    by_cases hp : s.phases[i]? = some Phase.doneSent <;> simp [hp]
  · intro hcanc hterm i app ha
    rw [← sent_iff_success H hterm hcanc ha, H.sentCount i]
    by_cases hp : s.phases[i]? = some Phase.doneSent <;> simp [hp]

/-- C3 witness: the amended theorem applied to the failing-task run. -/
theorem C3_channel_protocol_witness :
    (∀ i, keyCount sC3.chan i ≤ 1) ∧
    (sC3.closed = true → ∀ p ∈ sC3.phases, p.isTerminal = true) ∧
    (∀ i, sC3.phases[i]? = some Phase.doneSent ↔ keyCount sC3.chan i = 1) ∧
    (sC3.canceled = false → (∀ p ∈ sC3.phases, p.isTerminal = true) →
      ∀ (i : Nat) (app : Application), cfgC3.apps[i]? = some app →
        (keyCount sC3.chan i = 1 ↔
          (processApp cfgC3.env cfgC3.orgMap app).isSuccess = true)) :=
  C3_channel_protocol cfgC3 sC3 reachC3

/-- C10: in every reachable state the channel holds exactly one entry per
delivered task, hence never more than `len(apps)` — the buffer capacity
the channel is created with on line 81 — each task sends at most once,
and whenever a task stands at the delivery select the buffer still has
space, so a send never blocks. -/
theorem C10_nonblocking_channel (cfg : RunCfg) (s : SysState)
    (h : Reachable cfg s) :
    s.chan.length = countSent s.phases ∧
    s.chan.length ≤ cfg.apps.length ∧
    (∀ i, keyCount s.chan i ≤ 1) ∧
    (∀ (i : Nat) (rows : List Row),
      s.phases[i]? = some (Phase.delivering rows) →
      s.chan.length < cfg.apps.length) := by
  have H := inv_reachable h
  refine ⟨H.chanLen, ?_, ?_, ?_⟩
  · rw [H.chanLen, ← H.lenEq]
    exact List.countP_le_length _
  · intro i
    rw [H.sentCount i]
    split <;> omega
  · intro i rows hp
    have hmem : Phase.delivering rows ∈ s.phases := List.getElem?_mem hp
    have hlt : countSent s.phases < s.phases.length :=
      countP_lt_length _ s.phases (Phase.delivering rows) hmem (by simp)
    rw [H.chanLen, ← H.lenEq]
    exact hlt

/-- C10 witness: the theorem applied to the final state of the fixture
run. -/
theorem C10_nonblocking_channel_witness :
    sF1.chan.length = countSent sF1.phases ∧
    sF1.chan.length ≤ cfgW1.apps.length ∧
    (∀ i, keyCount sF1.chan i ≤ 1) ∧
    (∀ (i : Nat) (rows : List Row),
      sF1.phases[i]? = some (Phase.delivering rows) →
      sF1.chan.length < cfgW1.apps.length) :=
  C10_nonblocking_channel cfgW1 sF1 reachW1

/-- C1: in a run whose application and organization fetches succeed and
whose concurrent section completes without cancellation, the channel
content is a permutation of exactly the successful tasks' entries — so
the aggregate is the union of the successfully delivered row sequences —
every task whose pipeline fails contributes zero rows while the other
tasks' entries are unaffected, and (provided only the final write
succeeds) `GenerateLatestPolicyReport` returns the joined path with no
error: per-task failures never surface as a run error. -/
theorem C1_failure_isolation (env : Env) (cfg : Config)
    (orgID : Option String) (filename : String) (apps : List Application)
    (orgs : List Organization) (s : SysState)
    (hApps : env.getApplications orgID = Except.ok apps) (hne : apps ≠ [])
    (hOrgs : env.getOrganizations = Except.ok orgs)
    (hreach : Reachable (mkRunCfg env apps orgs) s)
    (hclosed : s.closed = true) (hcanc : s.canceled = false)
    (hcsv : env.writeCSV (filepathJoin cfg.outputDir filename)
      (aggregate s) = none) :
    GenerateLatestPolicyReport env cfg orgID filename
      ⟨filepathJoin cfg.outputDir filename, none⟩ ∧
    s.chan.Perm (successEntries (mkRunCfg env apps orgs)) ∧
    (∀ (i : Nat) (app : Application), apps[i]? = some app →
      (processApp env (buildOrgMap orgs) app).isSuccess = false →
      keyCount s.chan i = 0) := by
  have H := inv_reachable hreach
  have hterm := H.closedTerm hclosed
  refine ⟨GenerateLatestPolicyReport.ok apps orgs s hApps hne hOrgs hreach
      hclosed hcsv,
    chan_perm H hterm hcanc, ?_⟩
  intro i app ha hfail
  rw [H.sentCount i, if_neg]
  intro hs
  have hsucc := (sent_iff_success H hterm hcanc ha).mp hs
  have hsucc2 : (processApp env (buildOrgMap orgs) app).isSuccess = true := hsucc
  rw [hfail] at hsucc2
  simp at hsucc2

/-- C1 witness: the theorem applied to the fixture run in which `appA`
succeeds and `appB` fails. -/
theorem C1_failure_isolation_witness :
    GenerateLatestPolicyReport envW cfgW none "report.csv"
      ⟨filepathJoin cfgW.outputDir "report.csv", none⟩ ∧
    sF1.chan.Perm (successEntries cfgW1) ∧
    (∀ (i : Nat) (app : Application), [appA, appB][i]? = some app →
      (processApp envW (buildOrgMap [orgOne]) app).isSuccess = false →
      keyCount sF1.chan i = 0) :=
  C1_failure_isolation envW cfgW none "report.csv" [appA, appB] [orgOne]
    sF1 rfl (by decide) rfl reachW1 rfl rfl rfl

/-- C6: the violation-record-to-report-row mapping is a pure
field-for-field copy of the ten fields; in a completed uncanceled run in
which every application's pipeline succeeds, the aggregate row count
equals the sum of the per-application contributed row counts; and each
channel entry is exactly one application's fetched violation list
converted in its original order (order across applications is left
unspecified by the permutation in the C1 theorem). -/
theorem C6_row_mapping (cfg : RunCfg) (s : SysState)
    (hreach : Reachable cfg s) (hclosed : s.closed = true)
    (hcanc : s.canceled = false)
    (hallok : ∀ (i : Nat) (app : Application), cfg.apps[i]? = some app →
      (processApp cfg.env cfg.orgMap app).isSuccess = true) :
    (∀ r : ClientViolationRow,
      (toReportRow r).application = r.application ∧
      (toReportRow r).organization = r.organization ∧
      (toReportRow r).policy = r.policy ∧
      (toReportRow r).format = r.format ∧
      (toReportRow r).component = r.component ∧
      (toReportRow r).threat = r.threat ∧
      (toReportRow r).policyAction = r.policyAction ∧
      (toReportRow r).constraintName = r.constraintName ∧
      (toReportRow r).condition = r.condition ∧
      (toReportRow r).cve = r.cve) ∧
    (aggregate s).length =
      (cfg.apps.map (fun app =>
        (taskRows (processApp cfg.env cfg.orgMap app)).length)).sum ∧
    (∀ e ∈ s.chan, ∃ (app : Application) (rid orgName : String)
        (cr : List ClientViolationRow),
      cfg.apps[e.1]? = some app ∧
      cfg.env.getPolicyViolations app.publicId rid orgName = Except.ok cr ∧
      e.2 = cr.map toReportRow) := by
  have H := inv_reachable hreach
  have hterm := H.closedTerm hclosed
  refine ⟨fun r => ⟨rfl, rfl, rfl, rfl, rfl, rfl, rfl, rfl, rfl, rfl⟩,
    aggregate_length_eq H hterm hcanc, ?_⟩
  intro e he
  obtain ⟨app, ha, hsucc⟩ := H.chanOK e he
  obtain ⟨rid, orgName, cr, hviol, hrows⟩ :=
    success_shape cfg.env cfg.orgMap app e.2 hsucc
  exact ⟨app, rid, orgName, cr, ha, hviol, hrows⟩

/-- C6 witness: the theorem applied to the all-success run. -/
theorem C6_row_mapping_witness :
    (∀ r : ClientViolationRow,
      (toReportRow r).application = r.application ∧
      (toReportRow r).organization = r.organization ∧
      (toReportRow r).policy = r.policy ∧
      (toReportRow r).format = r.format ∧
      (toReportRow r).component = r.component ∧
      (toReportRow r).threat = r.threat ∧
      (toReportRow r).policyAction = r.policyAction ∧
      (toReportRow r).constraintName = r.constraintName ∧
      (toReportRow r).condition = r.condition ∧
      (toReportRow r).cve = r.cve) ∧
    (aggregate sAll).length =
      (cfgAll.apps.map (fun app =>
        (taskRows (processApp cfgAll.env cfgAll.orgMap app)).length)).sum ∧
    (∀ e ∈ sAll.chan, ∃ (app : Application) (rid orgName : String)
        (cr : List ClientViolationRow),
      cfgAll.apps[e.1]? = some app ∧
      cfgAll.env.getPolicyViolations app.publicId rid orgName =
        Except.ok cr ∧
      e.2 = cr.map toReportRow) :=
  C6_row_mapping cfgAll sAll reachAll rfl rfl (by
    intro i app ha
    have ha' : [appA][i]? = some app := ha
    cases i with
    | zero =>
      simp only [List.getElem?_cons_zero, Option.some.injEq] at ha'
      rw [← ha']
      decide
    | succ n => simp at ha')

end IQ
